import Mathlib

/-!
Verification of the linkedin job-collector pipeline (src/main.py).

Strings are modelled as lists of characters; the Python functions of the
source are translated one by one into executable Lean definitions.  The
HTML document tree, the HTTP transport and the Slack transport are external
collaborators in the source and are modelled as explicit data / oracles.
-/

/-- Python s.startswith(t): the list t is an initial segment of the first list. -/
def startsWithL : List Char → List Char → Bool
  | _, [] => true
  | [], _ :: _ => false
  | c :: t, d :: n => c == d && startsWithL t n

/-- Python (t in s): the second list occurs as a contiguous segment of the first. -/
def containsL (hay needle : List Char) : Bool :=
  match hay with
  | [] => startsWithL [] needle
  | _ :: t => startsWithL hay needle || containsL t needle

/-- Membership of a string in a list of strings (Python set / in). -/
def memL (s : List (List Char)) (u : List Char) : Bool :=
  match s with
  | [] => false
  | x :: t => (x == u) || memL t u

/-- ASCII whitespace, the characters Python treats as whitespace for strip and \s. -/
def isSpaceChar (c : Char) : Bool :=
  c == ' ' || c == '\t' || c == '\n' || c == '\r' || c == '\x0b' || c == '\x0c'

/-- Python s.strip(): remove leading and trailing whitespace. -/
def stripWS (l : List Char) : List Char :=
  ((l.dropWhile isSpaceChar).reverse.dropWhile isSpaceChar).reverse

/-- Python s.lower(), character by character. -/
def lowerL (l : List Char) : List Char := l.map Char.toLower

/-- Python s.isdigit(): nonempty and all decimal digits. -/
def isDigitStr (l : List Char) : Bool := !l.isEmpty && l.all Char.isDigit

/-- Python segment.split(hyphen). -/
def splitOnDash : List Char → List (List Char)
  | [] => [[]]
  | c :: t =>
    if c == '-' then [] :: splitOnDash t
    else
      match splitOnDash t with
      | [] => [[c]]
      | h :: r => (c :: h) :: r

/-- Python parts[-1] with a default for the (unreachable) empty list. -/
def lastD : List (List Char) → List Char → List Char
  | [], d => d
  | x :: t, _ => lastD t x

/-- The fixed site origin prepended to scheme-relative links in main.py. -/
def origin : List Char := "https://www.linkedin.com".data

/-- The job-detail path marker of main.py. -/
def marker : List Char := "/jobs/view/".data

/-- The literal canonical result head of normalize_job_url in main.py. -/
def canonPre : List Char := "https://www.linkedin.com/jobs/view/".data

/-- Python url.split(qm)[0].split(hash)[0]: strip everything from the first
question mark, then from the first hash. -/
def stripQueryFragment (u : List Char) : List Char :=
  (u.takeWhile (fun c => !(c == '?'))).takeWhile (fun c => !(c == '#'))

/-- The origin-prefixing step of normalize_job_url: a scheme-relative URL gets
the fixed site origin. -/
def withOrigin (url : List Char) : List Char :=
  if startsWithL url ['/'] then origin ++ url else url

/-- One optional trailing slash, the regex piece slash-question at the end of
the job-view pattern of main.py. -/
def rstripOneSlash (r : List Char) : List Char :=
  match r with
  | [] => []
  | c :: t => if c == '/' then t else c :: t

/-- Python segment.rstrip(slash). -/
def rstripSlashes (l : List Char) : List Char :=
  (l.reverse.dropWhile (fun c => c == '/')).reverse

/-- The regex search of main.py line 42 over the query-stripped URL: the
pattern jobs-view slash group-of-non-slash optional-slash end-of-string.
It matches exactly when the string ends with the marker followed by a
nonempty slash-free segment and an optional final slash; the captured group
is that segment. -/
def segOfBase (base : List Char) : Option (List Char) :=
  let r := rstripOneSlash base.reverse
  let s := r.takeWhile (fun c => !(c == '/'))
  if s.isEmpty then none
  else if startsWithL (r.dropWhile (fun c => !(c == '/'))) marker.reverse then some s.reverse
  else none

/-- Lines 46-51 of main.py: a purely numeric segment is the job id, otherwise
the last hyphen-delimited token when that token is numeric, otherwise the
whole segment. -/
def jobIdOf (segment : List Char) : List Char :=
  if isDigitStr segment then segment
  else
    let parts := splitOnDash segment
    if !parts.isEmpty && isDigitStr (lastD parts []) then lastD parts [] else segment

/-- main.py normalize_job_url (lines 36-52). -/
def normalize_job_url (url : List Char) : List Char :=
  let base := stripQueryFragment (withOrigin url)
  if !(containsL base marker) then base
  else
    match segOfBase base with
    | none => base
    | some seg => canonPre ++ jobIdOf (rstripSlashes seg)

/-!
The employee-count regular expressions of main.py (lines 134-156).  Each
pattern of the source is a fixed sequence of the atoms below; matching is
case-insensitive.  For these patterns greedy consumption of a whitespace or
digit run is exact, because the atom following a run never matches a
character of the run; the single genuinely branching atom (the optional
final letter s) is matched by explicit alternation.
-/

/-- An atom of the employee-count patterns: a word boundary, a literal
character (compared case-insensitively, given in lower case), a whitespace
run (possibly empty / nonempty), an optional literal, one digit of a range,
or a run of at least three digits. -/
inductive PTok where
  | bdry : PTok
  | lit : Char → PTok
  | ws0 : PTok
  | ws1 : PTok
  | optLit : Char → PTok
  | dRange : Char → Char → PTok
  | digits3 : PTok

/-- Word characters of the regex boundary class (ASCII letters, digits, underscore). -/
def isWordChar (c : Char) : Bool := c.isAlphanum || c == '_'

/-- A word boundary sits between a word character and a non-word character
(the ends of the text count as non-word). -/
def boundaryOk (prev : Option Char) (next : Option Char) : Bool :=
  (match prev with | some c => isWordChar c | none => false)
    != (match next with | some c => isWordChar c | none => false)

/-- Match a pattern at the current position; prev is the character just
before the position, for boundary tests. -/
def matchToks : List PTok → Option Char → List Char → Bool
  | [], _, _ => true
  | PTok.bdry :: ts, prev, text =>
      boundaryOk prev text.head? && matchToks ts prev text
  | PTok.lit _ :: _, _, [] => false
  | PTok.lit c :: ts, _, x :: rest => (x.toLower == c) && matchToks ts (some x) rest
  | PTok.ws0 :: ts, prev, text =>
      let run := text.takeWhile isSpaceChar
      matchToks ts (if run.isEmpty then prev else some (run.getLastD ' ')) (text.dropWhile isSpaceChar)
  | PTok.ws1 :: ts, _, text =>
      let run := text.takeWhile isSpaceChar
      !run.isEmpty && matchToks ts (some (run.getLastD ' ')) (text.dropWhile isSpaceChar)
  | PTok.optLit c :: ts, prev, text =>
      (match text with
       | x :: rest => (x.toLower == c) && matchToks ts (some x) rest
       | [] => false) || matchToks ts prev text
  | PTok.dRange _ _ :: _, _, [] => false
  | PTok.dRange lo hi :: ts, _, x :: rest =>
      (decide (lo ≤ x) && decide (x ≤ hi)) && matchToks ts (some x) rest
  | PTok.digits3 :: ts, _, text =>
      let run := text.takeWhile Char.isDigit
      decide (3 ≤ run.length) && matchToks ts (some (run.getLastD '0')) (text.dropWhile Char.isDigit)

/-- Try the pattern at every position of the text (regex search). -/
def searchRec (toks : List PTok) : Option Char → List Char → Bool
  | prev, [] => matchToks toks prev []
  | prev, c :: rest => matchToks toks prev (c :: rest) || searchRec toks (some c) rest

/-- Python re.search(pattern, text, IGNORECASE) as a boolean. -/
def regexSearch (toks : List PTok) (text : List Char) : Bool :=
  searchRec toks none text

/-- Literal characters of a pattern, one atom per character. -/
def litStr (s : String) : List PTok := s.data.map PTok.lit

/-- The suffix employees with optional final s then a word boundary. -/
def employeesSfx : List PTok := litStr "employee" ++ [PTok.optLit 's', PTok.bdry]

/-- A pattern boundary a ws0 hyphen ws0 b ws1 employees-optional-s boundary,
the shape of every explicit range pattern of main.py. -/
def rangePat (a b : String) : List PTok :=
  [PTok.bdry] ++ litStr a ++ [PTok.ws0, PTok.lit '-', PTok.ws0] ++ litStr b
    ++ [PTok.ws1] ++ employeesSfx

/-- in_range_patterns of main.py lines 135-140. -/
def in_range_patterns : List (List PTok) :=
  [ rangePat "1" "10"
  , rangePat "11" "50"
  , [PTok.bdry] ++ litStr "1" ++ [PTok.ws1] ++ litStr "employee" ++ [PTok.bdry]
  , rangePat "2" "10" ]

/-- The 10001-plus pattern of main.py line 150. -/
def tenThousandPlusPat : List PTok :=
  [PTok.bdry] ++ litStr "10001" ++ [PTok.ws0, PTok.lit '+', PTok.ws0] ++ employeesSfx

/-- First branch of the bare-count alternation of line 151: fifty-one to fifty-nine. -/
def bareFiftyPat : List PTok :=
  [PTok.bdry, PTok.lit '5', PTok.dRange '1' '9', PTok.ws1] ++ employeesSfx

/-- Second branch: sixty to ninety-nine. -/
def bareSixtyUpPat : List PTok :=
  [PTok.bdry, PTok.dRange '6' '9', PTok.dRange '0' '9', PTok.ws1] ++ employeesSfx

/-- Third branch: three or more digits. -/
def bareBigPat : List PTok :=
  [PTok.bdry, PTok.digits3, PTok.ws1] ++ employeesSfx

/-- out_of_range_patterns of main.py lines 144-152; the three-way alternation
of line 151 is listed as its three branches. -/
def out_of_range_patterns : List (List PTok) :=
  [ rangePat "51" "200"
  , rangePat "201" "500"
  , rangePat "501" "1000"
  , rangePat "1001" "5000"
  , rangePat "5001" "10000"
  , tenThousandPlusPat
  , bareFiftyPat
  , bareSixtyUpPat
  , bareBigPat ]

/-- main.py _parse_employee_range_from_text (lines 134-156): true on any
in-range match, otherwise false whether or not an out-of-range pattern
matches. -/
def parse_employee_range_from_text (text : List Char) : Bool :=
  if in_range_patterns.any (fun p => regexSearch p text) then true
  else if out_of_range_patterns.any (fun p => regexSearch p text) then false
  else false

/-!
Document model.  BeautifulSoup is an external collaborator of main.py; a
parsed document is modelled by the answers the source queries it for: the
two header lookups (the data-test-job-header div and the
top-card-layout entity-info div), the button and link collections with
their visible text, and the whole-document visible text.
-/

/-- A button or link element: optional href attribute and visible text
(get_text with space separator and strip). -/
structure AnchorE where
  href : Option (List Char)
  text : List Char
deriving DecidableEq

/-- A header container: its visible text and the link elements inside it. -/
structure HeaderE where
  text : List Char
  anchors : List AnchorE
deriving DecidableEq

/-- A parsed document as queried by main.py. -/
structure Doc where
  headerA : Option HeaderE
  headerB : Option HeaderE
  buttons : List AnchorE
  anchors : List AnchorE
  fullText : List Char
deriving DecidableEq

/-- The header lookup of main.py lines 84-86: the first selector, or else the
fallback selector. -/
def headerOf (d : Doc) : Option HeaderE :=
  match d.headerA with
  | some h => some h
  | none => d.headerB

/-- THIRD_PARTY_KEYWORDS of main.py line 94. -/
def THIRD_PARTY_KEYWORDS : List (List Char) :=
  ["indeed".data, "monster".data, "glassdoor".data, "ziprecruiter".data]

/-- main.py is_first_party_job (lines 79-102). -/
def is_first_party_job (d : Doc) : Bool :=
  let viaHit :=
    match headerOf d with
    | some h => containsL (lowerL h.text) " via ".data
    | none => false
  if viaHit then false
  else if (d.buttons ++ d.anchors).any (fun el =>
      containsL (lowerL el.text) "apply on ".data
        && THIRD_PARTY_KEYWORDS.any (fun k => containsL (lowerL el.text) k))
  then false
  else true

/-- The loop of main.py lines 121-131: first header link whose href contains
the company marker, origin-prefixed and query-stripped, skipping candidates
whose stripped base is empty. -/
def firstCompanyHref : List AnchorE → List Char
  | [] => []
  | a :: rest =>
    match a.href with
    | none => firstCompanyHref rest
    | some hr =>
      let hrs := stripWS hr
      if !(containsL hrs "/company/".data) then firstCompanyHref rest
      else
        let base := stripQueryFragment (if startsWithL hrs ['/'] then origin ++ hrs else hrs)
        if base.isEmpty then firstCompanyHref rest else base

/-- main.py parse_company_profile_url_from_job_page (lines 109-131). -/
def parse_company_profile_url_from_job_page (d : Doc) : List Char :=
  match headerOf d with
  | none => []
  | some h => firstCompanyHref h.anchors

/-- The loop of main.py lines 186-192: first company link in the header whose
text is nonempty and shorter than 200 characters. -/
def firstCompanyName : List AnchorE → List Char
  | [] => []
  | a :: rest =>
    match a.href with
    | none => firstCompanyName rest
    | some hr =>
      if containsL hr "/company/".data then
        if !a.text.isEmpty && a.text.length < 200 then a.text else firstCompanyName rest
      else firstCompanyName rest

/-- main.py parse_company_name_from_job_page (lines 178-192). -/
def parse_company_name_from_job_page (d : Doc) : List Char :=
  match headerOf d with
  | none => []
  | some h => firstCompanyName h.anchors

/-- The fetch collaborator: a transport call either fails (a
RequestException in the source) or yields a parsed document. -/
def FetchOracle : Type := List Char → Except Unit Doc

/-- main.py is_company_size_1_to_50 (lines 159-175): resolve the company
profile link, fetch it (a transport failure is caught and yields false) and
classify its visible text. -/
def is_company_size_1_to_50 (d : Doc) (fetch : FetchOracle) : Bool :=
  let company_url := parse_company_profile_url_from_job_page d
  if company_url.isEmpty then false
  else
    match fetch company_url with
    | Except.error _ => false
    | Except.ok cd => parse_employee_range_from_text cd.fullText

/-- JobResult of main.py lines 30-33. -/
structure JobResult where
  url : List Char
  company_name : List Char
deriving DecidableEq

/-- main.py filter_first_party_jobs (lines 195-210): fetch each job page (a
transport failure is caught, logged and skips only that URL), keep
first-party small-company jobs, and attach the parsed company name. -/
def filter_first_party_jobs (fetch : FetchOracle) : List (List Char) → List JobResult
  | [] => []
  | url :: rest =>
    match fetch url with
    | Except.error _ => filter_first_party_jobs fetch rest
    | Except.ok d =>
      if is_first_party_job d && is_company_size_1_to_50 d fetch then
        ⟨url, parse_company_name_from_job_page d⟩ :: filter_first_party_jobs fetch rest
      else filter_first_party_jobs fetch rest

/-!
Slack delivery and the CSV store.
-/

/-- The Slack HTTP response as far as main.py looks at it: the HTTP status
code (which the source never reads) and the parsed body, none when the body
is not JSON, otherwise the truthiness of its ok field (a missing ok field is
falsy). -/
structure SlackResponse where
  status : Nat
  payload : Option Bool
deriving DecidableEq

/-- Result of the Slack transport call: an exception, or a response. -/
inductive PostResult where
  | err : PostResult
  | resp : SlackResponse → PostResult
deriving DecidableEq

/-- One outgoing chat-postMessage call: target channel and message text. -/
structure SlackCall where
  channel : List Char
  text : List Char
deriving DecidableEq

/-- Truthiness of an optional string (Python: not channel_id). -/
def optFalsy (o : Option (List Char)) : Bool :=
  match o with
  | none => true
  | some s => s.isEmpty

/-- The message text of main.py lines 293-294. -/
def slackTextFor (job : JobResult) : List Char :=
  (if job.company_name.isEmpty then "Company".data else job.company_name)
    ++ ": ".data ++ job.url

/-- The chat-postMessage call main.py line 296-304 would issue for a job. -/
def slackCallFor (job : JobResult) (channel_id : Option (List Char)) : SlackCall :=
  ⟨channel_id.getD [], slackTextFor job⟩

/-- Lines 306-309 of main.py: the truthiness test of the ok field of the
parsed body; a missing field and a falsy field both fail. -/
def ackTruthy (p : Option Bool) : Bool :=
  match p with
  | none => false
  | some ok => if ok then true else false

/-- The try body of main.py lines 295-312: an exception of the transport
call (or of the body parse) is caught and yields false, otherwise the
result is the truthiness of the ok field. -/
def sendOutcome (pr : PostResult) : Bool :=
  match pr with
  | PostResult.err => false
  | PostResult.resp r => ackTruthy r.payload

/-- main.py send_job_to_slack (lines 282-312).  Besides the boolean result it
returns the list of transport calls performed, so that the absence of a
transport attempt is expressible. -/
def send_job_to_slack (post : SlackCall → PostResult) (job : JobResult)
    (channel_id : Option (List Char)) (token : List Char) : Bool × List SlackCall :=
  if token.isEmpty || optFalsy channel_id then (false, [])
  else (sendOutcome (post (slackCallFor job channel_id)), [slackCallFor job channel_id])

/-- One data row of the CSV store (header company, job_url). -/
structure CsvRow where
  company : List Char
  job_url : List Char
deriving DecidableEq

/-- The store file: none models a missing file, some rows a file with the
header row and the given data rows. -/
def rowsOf : Option (List CsvRow) → List CsvRow
  | none => []
  | some r => r

/-- Python set.add: append the url unless already present. -/
def insertUrl (s : List (List Char)) (u : List Char) : List (List Char) :=
  if memL s u then s else s ++ [u]

/-- The identity a stored job_url field contributes to the in-memory set
(main.py line 221): strip, then re-canonicalize when it contains the
job-detail marker. -/
def loadKey (u : List Char) : List Char :=
  let raw := stripWS u
  if containsL raw marker then normalize_job_url raw else raw

/-- One iteration of the reader loop of main.py lines 218-221: rows with a
falsy job_url field are skipped. -/
def addRow (s : List (List Char)) (row : CsvRow) : List (List Char) :=
  if row.job_url.isEmpty then s else insertUrl s (loadKey row.job_url)

/-- main.py load_existing_job_urls (lines 213-224): a missing file yields the
empty set. -/
def load_existing_job_urls (store : Option (List CsvRow)) : List (List Char) :=
  match store with
  | none => []
  | some rows => rows.foldl addRow []

/-- main.py append_jobs_to_csv (lines 227-237): open for append (creating the
file and writing the header when missing) and write one row company, job_url
per job. -/
def append_jobs_to_csv (jobs : List JobResult) (store : Option (List CsvRow)) :
    Option (List CsvRow) :=
  some (rowsOf store ++ jobs.map (fun j => (⟨j.company_name, j.url⟩ : CsvRow)))

/-- Configuration and collaborators of one cycle: the two environment
variables and the Slack transport. -/
structure CycleEnv where
  slack_bot_token : Option (List Char)
  slack_channel_id : Option (List Char)
  post : SlackCall → PostResult

/-- main.py line 327: the token is read from the environment and stripped. -/
def slackTokenOf (env : CycleEnv) : List Char :=
  stripWS (env.slack_bot_token.getD [])

/-- What one cycle computes: the store after the cycle, the new (non
duplicate) jobs, the duplicate count, the jobs posted (or delivery-skipped)
and persisted, and the reported total. -/
structure CycleOutcome where
  store : Option (List CsvRow)
  new_jobs : List JobResult
  duplicate_count : Nat
  posted : List JobResult
  total : Nat

/-- Line 322 of main.py: the new jobs are the discovered jobs whose URL is
not in the loaded existing set. -/
def new_jobsOf (store : Option (List CsvRow)) (jobs : List JobResult) : List JobResult :=
  jobs.filter (fun j => !(memL (load_existing_job_urls store) j.url))

/-- Lines 331-339 of main.py: with no token every new job is
delivered-by-default, otherwise exactly those new jobs whose Slack delivery
succeeded are kept, in order. -/
def postedOf (env : CycleEnv) (store : Option (List CsvRow)) (jobs : List JobResult) :
    List JobResult :=
  if (slackTokenOf env).isEmpty then new_jobsOf store jobs
  else (new_jobsOf store jobs).filter
    (fun j => (send_job_to_slack env.post j env.slack_channel_id (slackTokenOf env)).fst)

/-- main.py run_once (lines 315-350) with the discovery result passed in:
load the existing set, drop duplicates, deliver each new job when a token is
configured, and append exactly the delivered (or delivery-skipped) jobs; the
store is only touched when there is something to append. -/
def run_once (env : CycleEnv) (store : Option (List CsvRow)) (jobs : List JobResult) :
    CycleOutcome :=
  ⟨if (postedOf env store jobs).isEmpty then store
     else append_jobs_to_csv (postedOf env store jobs) store,
   new_jobsOf store jobs,
   jobs.length - (new_jobsOf store jobs).length,
   postedOf env store jobs,
   (load_existing_job_urls store).length + (postedOf env store jobs).length⟩

/-- Recognizer of an admissible query-or-fragment suffix: empty, or starting
with a question mark, or starting with a hash. -/
def qfSuffixB (s : List Char) : Bool :=
  match s with
  | [] => true
  | c :: _ => c == '?' || c == '#'

/-- Recognizer of an optional trailing slash. -/
def trailB (t : List Char) : Bool := t.isEmpty || t == ['/']

/-- No query or fragment character occurs in the list. -/
abbrev noQF (l : List Char) : Prop := ∀ c ∈ l, (c == '?') = false ∧ (c == '#') = false

/-!
Concrete fixtures used by the witness theorems below.
-/

/-- A cycle with no Slack token configured. -/
def envNone : CycleEnv := ⟨none, none, fun _ => PostResult.err⟩

/-- A cycle with a token and channel whose transport always fails. -/
def envFail : CycleEnv := ⟨some "tok".data, some "chan".data, fun _ => PostResult.err⟩

/-- A cycle with a token but no channel, over a transport that would accept. -/
def envNoChan : CycleEnv := ⟨some "tok".data, none, fun _ => PostResult.resp ⟨200, some true⟩⟩

/-- A canonical job, as the discovery stage produces it. -/
def jobA : JobResult := ⟨"https://www.linkedin.com/jobs/view/123".data, "Acme".data⟩

/-- A discovery-producible job URL that the stored-row round trip does not
preserve: its final path segment carries a trailing space, so the regex of
normalize_job_url does not match and the URL is returned verbatim, while
load_existing_job_urls strips the space from the stored field. -/
def jobBad : JobResult := ⟨"x/jobs/view/a/b ".data, "c".data⟩

/-- A job-detail document for a first-party small-company posting: a header
without via-text and with a company link, and a first-party apply button. -/
def docGood : Doc :=
  ⟨some ⟨"Acme Corp".data, [⟨some "/company/acme".data, "Acme Corp".data⟩]⟩,
   none,
   [⟨none, "Apply on company website".data⟩],
   [],
   []⟩

/-- The company profile document behind the company link of docGood. -/
def docCompany : Doc := ⟨none, none, [], [], "Acme Corp 11-50 employees".data⟩

/-- The canonical company profile URL that docGood resolves to. -/
def companyUrlA : List Char := "https://www.linkedin.com/company/acme".data

/-- A fetch oracle that fails on one particular job URL, serves the company
page on its URL, and serves the good job page everywhere else. -/
def fetchA : FetchOracle := fun u =>
  if u == "https://bad.example".data then Except.error ()
  else if u == companyUrlA then Except.ok docCompany
  else Except.ok docGood

/-!
Executable checks of the definitions on concrete inputs.
-/

example : normalize_job_url "/jobs/view/4370870454?refId=7".data
    = "https://www.linkedin.com/jobs/view/4370870454".data := by decide

example : normalize_job_url "https://www.linkedin.com/jobs/view/senior-engineer-4370870454/".data
    = "https://www.linkedin.com/jobs/view/4370870454".data := by decide

example : normalize_job_url "https://www.linkedin.com/feed?x=1".data
    = "https://www.linkedin.com/feed".data := by decide

example : normalize_job_url "x/jobs/view/a/b ".data = "x/jobs/view/a/b ".data := by decide

example : parse_employee_range_from_text "Acme has 11-50 employees on site".data = true := by decide
example : parse_employee_range_from_text "Acme has 201-500 employees".data = false := by decide
example : parse_employee_range_from_text "1 employee".data = true := by decide
example : parse_employee_range_from_text "we have 1   -  10 Employees".data = true := by decide
example : parse_employee_range_from_text "120 employees".data = false := by decide
example : parse_employee_range_from_text "51 employees".data = false := by decide
example : parse_employee_range_from_text "no size here".data = false := by decide
example : parse_employee_range_from_text "2-10 employees and 5000000 in funding".data = true := by decide
example : parse_employee_range_from_text "311-50 employees".data = false := by decide

/-!
List lemmas used by the canonicalizer proofs.
-/

theorem tw_cons_pos {α : Type} {p : α → Bool} {c : α} {l : List α} (h : p c = true) :
    List.takeWhile p (c :: l) = c :: List.takeWhile p l := by
  simp [List.takeWhile, h]

theorem tw_cons_neg {α : Type} {p : α → Bool} {c : α} {l : List α} (h : p c = false) :
    List.takeWhile p (c :: l) = [] := by
  simp [List.takeWhile, h]

theorem dw_cons_pos {α : Type} {p : α → Bool} {c : α} {l : List α} (h : p c = true) :
    List.dropWhile p (c :: l) = List.dropWhile p l := by
  simp [List.dropWhile, h]

theorem dw_cons_neg {α : Type} {p : α → Bool} {c : α} {l : List α} (h : p c = false) :
    List.dropWhile p (c :: l) = c :: l := by
  simp [List.dropWhile, h]

theorem tw_append_all {α : Type} {p : α → Bool} {A B : List α}
    (h : ∀ c ∈ A, p c = true) :
    List.takeWhile p (A ++ B) = A ++ List.takeWhile p B := by
  induction A with
  | nil => rfl
  | cons c t ih =>
    rw [List.cons_append, tw_cons_pos (h c (List.mem_cons_self c t)), List.cons_append,
      ih (fun x hx => h x (List.mem_cons_of_mem c hx))]

theorem tw_all {α : Type} {p : α → Bool} {A : List α} (h : ∀ c ∈ A, p c = true) :
    List.takeWhile p A = A := by
  induction A with
  | nil => rfl
  | cons c t ih =>
    rw [tw_cons_pos (h c (List.mem_cons_self c t)),
      ih (fun x hx => h x (List.mem_cons_of_mem c hx))]

theorem dw_append_all {α : Type} {p : α → Bool} {A B : List α}
    (h : ∀ c ∈ A, p c = true) :
    List.dropWhile p (A ++ B) = List.dropWhile p B := by
  induction A with
  | nil => rfl
  | cons c t ih =>
    rw [List.cons_append, dw_cons_pos (h c (List.mem_cons_self c t)),
      ih (fun x hx => h x (List.mem_cons_of_mem c hx))]

theorem dw_all_neg {α : Type} {p : α → Bool} {A : List α} (h : ∀ c ∈ A, p c = false) :
    List.dropWhile p A = A := by
  cases A with
  | nil => rfl
  | cons c t => exact dw_cons_neg (h c (List.mem_cons_self c t))

theorem mem_tw {α : Type} {p : α → Bool} {l : List α} {c : α}
    (h : c ∈ List.takeWhile p l) : p c = true ∧ c ∈ l := by
  induction l with
  | nil => simp [List.takeWhile] at h
  | cons a t ih =>
    by_cases ha : p a = true
    · rw [tw_cons_pos ha] at h
      rcases List.mem_cons.mp h with h1 | h2
      · subst h1; exact ⟨ha, List.mem_cons_self _ _⟩
      · rcases ih h2 with ⟨hp, hm⟩; exact ⟨hp, List.mem_cons_of_mem _ hm⟩
    · rw [tw_cons_neg (Bool.eq_false_iff.mpr ha)] at h
      simp at h

theorem mem_dw {α : Type} {p : α → Bool} {l : List α} {c : α}
    (h : c ∈ List.dropWhile p l) : c ∈ l := by
  induction l with
  | nil => simp [List.dropWhile] at h
  | cons a t ih =>
    by_cases ha : p a = true
    · rw [dw_cons_pos ha] at h
      exact List.mem_cons_of_mem _ (ih h)
    · rwa [dw_cons_neg (Bool.eq_false_iff.mpr ha)] at h

theorem startsWithL_append_self : ∀ (n t : List Char), startsWithL (n ++ t) n = true
  | [], t => by cases t <;> rfl
  | c :: n, t => by
    rw [List.cons_append]
    show (c == c && startsWithL (n ++ t) n) = true
    rw [startsWithL_append_self n t]
    simp

theorem containsL_middle : ∀ (a m b : List Char), containsL (a ++ (m ++ b)) m = true := by
  intro a m b
  induction a with
  | nil =>
    cases m with
    | nil => cases b <;> rfl
    | cons d m' =>
      show (startsWithL ((d :: m') ++ b) (d :: m') || _) = true
      rw [startsWithL_append_self]
      rfl
  | cons c a' ih =>
    show (_ || containsL (a' ++ (m ++ b)) m) = true
    rw [ih, Bool.or_true]

theorem memL_iff {s : List (List Char)} {u : List Char} : memL s u = true ↔ u ∈ s := by
  induction s with
  | nil => simp [memL]
  | cons x t ih =>
    show (x == u || memL t u) = true ↔ _
    rw [Bool.or_eq_true, ih]
    constructor
    · rintro (h | h)
      · exact List.mem_cons.mpr (Or.inl (eq_of_beq h).symm)
      · exact List.mem_cons_of_mem _ h
    · intro h
      rcases List.mem_cons.mp h with h | h
      · exact Or.inl (beq_iff_eq.mpr h.symm)
      · exact Or.inr h

/-!
Lemmas about splitOnDash and lastD.
-/

theorem splitOnDash_ne_nil : ∀ (l : List Char), splitOnDash l ≠ []
  | [] => by simp [splitOnDash]
  | c :: t => by
    by_cases h : (c == '-') = true
    · simp [splitOnDash, h]
    · have h' : (c == '-') = false := Bool.eq_false_iff.mpr h
      cases hs : splitOnDash t with
      | nil => simp [splitOnDash, h', hs]
      | cons a r => simp [splitOnDash, h', hs]

theorem splitOnDash_no_dash : ∀ (l : List Char), ('-' ∉ l) → splitOnDash l = [l]
  | [], _ => rfl
  | c :: t, h => by
    have hc : (c == '-') = false := by
      apply Bool.eq_false_iff.mpr
      intro hb
      exact h (by rw [eq_of_beq hb]; exact List.mem_cons_self _ _)
    have ht : splitOnDash t = [t] := splitOnDash_no_dash t (fun hm => h (List.mem_cons_of_mem _ hm))
    simp [splitOnDash, hc, ht]

theorem splitOnDash_append_dash :
    ∀ (a b : List Char), ∃ L, L ≠ [] ∧ splitOnDash (a ++ '-' :: b) = L ++ splitOnDash b
  | [], b => ⟨[[]], by simp, by simp [splitOnDash]⟩
  | c :: a', b => by
    rcases splitOnDash_append_dash a' b with ⟨L, hL, hEq⟩
    by_cases h : (c == '-') = true
    · refine ⟨[] :: L, by simp, ?_⟩
      simp [splitOnDash, h, hEq]
    · have h' : (c == '-') = false := Bool.eq_false_iff.mpr h
      cases L with
      | nil => exact absurd rfl hL
      | cons Lh Lt =>
        refine ⟨(c :: Lh) :: Lt, by simp, ?_⟩
        rw [List.cons_append]
        have hc : splitOnDash (c :: (a' ++ '-' :: b)) =
            match splitOnDash (a' ++ '-' :: b) with
            | [] => [[c]]
            | sh :: st => (c :: sh) :: st := by
          conv_lhs => unfold splitOnDash
          rw [if_neg (by simp [h'])]
        rw [hc, hEq]
        simp

theorem splitOnDash_sub : ∀ (l : List Char), ∀ p ∈ splitOnDash l, ∀ c ∈ p, c ∈ l
  | [], p, hp, c, hc => by
    simp [splitOnDash] at hp
    subst hp
    simp at hc
  | a :: t, p, hp, c, hc => by
    by_cases h : (a == '-') = true
    · simp only [splitOnDash, h, if_pos] at hp
      rcases List.mem_cons.mp hp with h1 | h2
      · subst h1; simp at hc
      · exact List.mem_cons_of_mem _ (splitOnDash_sub t p h2 c hc)
    · have h' : (a == '-') = false := Bool.eq_false_iff.mpr h
      cases hs : splitOnDash t with
      | nil => exact absurd hs (splitOnDash_ne_nil t)
      | cons sh st =>
        simp only [splitOnDash, h', Bool.false_eq_true, if_false, hs] at hp
        rcases List.mem_cons.mp hp with h1 | h2
        · subst h1
          rcases List.mem_cons.mp hc with h3 | h4
          · subst h3; exact List.mem_cons_self _ _
          · refine List.mem_cons_of_mem _ (splitOnDash_sub t sh ?_ c h4)
            rw [hs]; exact List.mem_cons_self _ _
        · refine List.mem_cons_of_mem _ (splitOnDash_sub t p ?_ c hc)
          rw [hs]; exact List.mem_cons_of_mem _ h2

theorem lastD_append : ∀ (L : List (List Char)) (m : List Char) (ms : List (List Char))
    (d : List Char), lastD (L ++ m :: ms) d = lastD ms m
  | [], m, ms, d => rfl
  | x :: L', m, ms, d => by
    rw [List.cons_append]
    show lastD (L' ++ m :: ms) x = lastD ms m
    exact lastD_append L' m ms x

theorem lastD_mem : ∀ (l : List (List Char)) (d : List Char), l ≠ [] → lastD l d ∈ l
  | [], d, h => absurd rfl h
  | [x], d, _ => by simp [lastD]
  | x :: y :: t, d, _ => by
    show lastD (y :: t) x ∈ x :: y :: t
    exact List.mem_cons_of_mem _ (lastD_mem (y :: t) x (by simp))

/-!
Lemmas about jobIdOf.
-/

theorem jobIdOf_ne_nil {s : List Char} (h : s ≠ []) : jobIdOf s ≠ [] := by
  unfold jobIdOf
  by_cases h1 : isDigitStr s = true
  · rw [if_pos h1]; exact h
  · rw [if_neg h1]
    by_cases h2 : (!(splitOnDash s).isEmpty && isDigitStr (lastD (splitOnDash s) [])) = true
    · rw [if_pos h2]
      intro hnil
      have := (Bool.and_eq_true _ _).mp h2
      rw [hnil] at this
      simp [isDigitStr] at this
    · rw [if_neg h2]; exact h

theorem jobIdOf_mem {s : List Char} {c : Char} (h : c ∈ jobIdOf s) : c ∈ s := by
  unfold jobIdOf at h
  by_cases h1 : isDigitStr s = true
  · rwa [if_pos h1] at h
  · rw [if_neg h1] at h
    by_cases h2 : (!(splitOnDash s).isEmpty && isDigitStr (lastD (splitOnDash s) [])) = true
    · rw [if_pos h2] at h
      have hne : splitOnDash s ≠ [] := splitOnDash_ne_nil s
      have hmem := lastD_mem (splitOnDash s) [] hne
      exact splitOnDash_sub s _ hmem c h
    · rwa [if_neg h2] at h

theorem jobIdOf_idem (s : List Char) : jobIdOf (jobIdOf s) = jobIdOf s := by
  by_cases h1 : isDigitStr s = true
  · have hs : jobIdOf s = s := by unfold jobIdOf; rw [if_pos h1]
    rw [hs, hs]
  · by_cases h2 : (!(splitOnDash s).isEmpty && isDigitStr (lastD (splitOnDash s) [])) = true
    · have hs : jobIdOf s = lastD (splitOnDash s) [] := by
        unfold jobIdOf; rw [if_neg h1, if_pos h2]
      have hd : isDigitStr (lastD (splitOnDash s) []) = true := ((Bool.and_eq_true _ _).mp h2).2
      rw [hs]
      unfold jobIdOf
      rw [if_pos hd]
    · have hs : jobIdOf s = s := by unfold jobIdOf; rw [if_neg h1, if_neg h2]
      rw [hs, hs]

/-!
Lemmas about the query-fragment stripper and the end-anchored regex.
-/

theorem startsWithL_nil : ∀ (t : List Char), startsWithL t [] = true := by
  intro t
  cases t <;> rfl

theorem mem_stripQF {u : List Char} {c : Char} (h : c ∈ stripQueryFragment u) :
    c ∈ u ∧ (c == '?') = false ∧ (c == '#') = false := by
  unfold stripQueryFragment at h
  have h2 := mem_tw h
  have h1 := mem_tw h2.2
  refine ⟨h1.2, ?_, ?_⟩
  · simpa using h1.1
  · simpa using h2.1

theorem stripQF_eq_self {l : List Char} (h : noQF l) : stripQueryFragment l = l := by
  unfold stripQueryFragment
  have h1 : List.takeWhile (fun c => !(c == '?')) l = l :=
    tw_all (fun c hc => by simp [(h c hc).1])
  rw [h1]
  exact tw_all (fun c hc => by simp [(h c hc).2])

theorem stripQF_idem (u : List Char) :
    stripQueryFragment (stripQueryFragment u) = stripQueryFragment u :=
  stripQF_eq_self (fun _ hc => (mem_stripQF hc).2)

theorem stripQF_append_qf {A s : List Char} (hA : noQF A) (hs : qfSuffixB s = true) :
    stripQueryFragment (A ++ s) = A := by
  have hA1 : ∀ x ∈ A, (fun c => !(c == '?')) x = true := fun x hx => by simp [(hA x hx).1]
  have hA2 : ∀ x ∈ A, (fun c => !(c == '#')) x = true := fun x hx => by simp [(hA x hx).2]
  cases s with
  | nil => rw [List.append_nil]; exact stripQF_eq_self hA
  | cons c r =>
    unfold stripQueryFragment
    have hcr : ((c == '?') || (c == '#')) = true := by simpa [qfSuffixB] using hs
    by_cases hq : (c == '?') = true
    · rw [tw_append_all hA1, tw_cons_neg (by simp [hq]), List.append_nil]
      exact tw_all hA2
    · have hh : (c == '#') = true := by
        cases hcq : (c == '?') with
        | true => exact absurd hcq hq
        | false => simpa [hcq] using hcr
      rw [tw_append_all hA1, tw_cons_pos (by simp [Bool.eq_false_iff.mpr hq]),
        tw_append_all hA2, tw_cons_neg (by simp [hh]), List.append_nil]

theorem rstripOneSlash_mem {r : List Char} {c : Char} (h : c ∈ rstripOneSlash r) : c ∈ r := by
  cases r with
  | nil => simp [rstripOneSlash] at h
  | cons a t =>
    have he : rstripOneSlash (a :: t) = if a == '/' then t else a :: t := rfl
    by_cases ha : (a == '/') = true
    · rw [he, if_pos ha] at h
      exact List.mem_cons_of_mem _ h
    · rwa [he, if_neg ha] at h

theorem rstripSlashes_eq_self {l : List Char} (h : ∀ c ∈ l, (c == '/') = false) :
    rstripSlashes l = l := by
  unfold rstripSlashes
  rw [dw_all_neg (fun c hc => h c (List.mem_reverse.mp hc))]
  exact List.reverse_reverse l

theorem segOfBase_inv {b seg : List Char} (h : segOfBase b = some seg) :
    seg ≠ [] ∧ (∀ c ∈ seg, (c == '/') = false) ∧ (∀ c ∈ seg, c ∈ b) := by
  unfold segOfBase at h
  simp only [] at h
  by_cases h1 : ((rstripOneSlash b.reverse).takeWhile (fun c => !(c == '/'))).isEmpty = true
  · rw [if_pos h1] at h
    simp at h
  · rw [if_neg h1] at h
    by_cases h2 : startsWithL ((rstripOneSlash b.reverse).dropWhile (fun c => !(c == '/')))
        marker.reverse = true
    · rw [if_pos h2] at h
      injection h with h
      subst h
      refine ⟨?_, ?_, ?_⟩
      · intro hnil
        rw [List.reverse_eq_nil_iff] at hnil
        rw [hnil] at h1
        exact h1 rfl
      · intro c hc
        rw [List.mem_reverse] at hc
        simpa using (mem_tw hc).1
      · intro c hc
        rw [List.mem_reverse] at hc
        exact List.mem_reverse.mp (rstripOneSlash_mem (mem_tw hc).2)
    · rw [if_neg h2] at h
      simp at h

theorem segOfBase_append (pre seg t : List Char)
    (hne : seg ≠ []) (hnos : ∀ c ∈ seg, (c == '/') = false)
    (ht : t = [] ∨ t = ['/']) :
    segOfBase (pre ++ marker ++ seg ++ t) = some seg := by
  have hmrev : marker.reverse = '/' :: "weiv/sboj/".data := by decide
  obtain ⟨c, cs, hcc⟩ : ∃ c cs, seg.reverse = c :: cs := by
    cases hsr : seg.reverse with
    | nil => exact absurd (List.reverse_eq_nil_iff.mp hsr) hne
    | cons c cs => exact ⟨c, cs, rfl⟩
  have hcf : (c == '/') = false :=
    hnos c (List.mem_reverse.mp (hcc ▸ List.mem_cons_self c cs))
  have hr : rstripOneSlash (pre ++ marker ++ seg ++ t).reverse
      = seg.reverse ++ (marker.reverse ++ pre.reverse) := by
    rcases ht with h | h
    · subst h
      rw [List.append_nil, List.reverse_append, List.reverse_append, hcc, List.cons_append]
      have he : rstripOneSlash (c :: (cs ++ (marker.reverse ++ pre.reverse)))
          = if c == '/' then cs ++ (marker.reverse ++ pre.reverse)
            else c :: (cs ++ (marker.reverse ++ pre.reverse)) := rfl
      rw [he, if_neg (by simp [hcf]), ← List.cons_append, ← hcc]
    · subst h
      rw [List.reverse_append, List.reverse_append, List.reverse_append]
      have he : (['/'] : List Char).reverse = ['/'] := rfl
      rw [he, List.singleton_append]
      have he2 : rstripOneSlash ('/' :: (seg.reverse ++ (marker.reverse ++ pre.reverse)))
          = seg.reverse ++ (marker.reverse ++ pre.reverse) := by
        have he3 : rstripOneSlash ('/' :: (seg.reverse ++ (marker.reverse ++ pre.reverse)))
            = if ('/' : Char) == '/' then seg.reverse ++ (marker.reverse ++ pre.reverse)
              else '/' :: (seg.reverse ++ (marker.reverse ++ pre.reverse)) := rfl
        rw [he3, if_pos (by decide)]
      exact he2
  have hp : ∀ x ∈ seg.reverse, (fun c => !(c == '/')) x = true := by
    intro x hx
    simp [hnos x (List.mem_reverse.mp hx)]
  have htw : (seg.reverse ++ (marker.reverse ++ pre.reverse)).takeWhile (fun c => !(c == '/'))
      = seg.reverse := by
    rw [tw_append_all hp, hmrev, List.cons_append, tw_cons_neg (by decide), List.append_nil]
  have hdw : (seg.reverse ++ (marker.reverse ++ pre.reverse)).dropWhile (fun c => !(c == '/'))
      = marker.reverse ++ pre.reverse := by
    rw [dw_append_all hp, hmrev, List.cons_append, dw_cons_neg (by decide), ← List.cons_append,
      ← hmrev]
  have hie : seg.reverse.isEmpty = false := by rw [hcc]; rfl
  unfold segOfBase
  simp only []
  rw [hr, htw, hdw, if_neg (by simp [hie]), if_pos (startsWithL_append_self _ _),
    List.reverse_reverse]

/-!
The stripped base of normalize_job_url is a fixed point of its own
preprocessing, and the canonical output shape is recognized by the regex.
-/

theorem startsWith_stripQF_withOrigin (u : List Char) :
    startsWithL (stripQueryFragment (withOrigin u)) ['/'] = false := by
  unfold withOrigin
  by_cases h : startsWithL u ['/'] = true
  · rw [if_pos h]
    have ho : origin = 'h' :: "ttps://www.linkedin.com".data := by decide
    rw [ho, List.cons_append]
    unfold stripQueryFragment
    rw [tw_cons_pos (by decide), tw_cons_pos (by decide)]
    show (('h' == '/') && _) = false
    rw [show (('h' : Char) == '/') = false by decide]
    rfl
  · rw [if_neg h]
    cases u with
    | nil => rfl
    | cons c t =>
      have hsw : startsWithL (c :: t) ['/'] = (c == '/') := by
        show ((c == '/') && startsWithL t []) = _
        rw [startsWithL_nil, Bool.and_true]
      have hcs : (c == '/') = false := by
        rw [← hsw]
        exact Bool.eq_false_iff.mpr h
      unfold stripQueryFragment
      by_cases hq : (c == '?') = true
      · rw [tw_cons_neg (by simp [hq])]
        rfl
      · rw [tw_cons_pos (by simp [Bool.eq_false_iff.mpr hq])]
        by_cases hh : (c == '#') = true
        · rw [tw_cons_neg (by simp [hh])]
          rfl
        · rw [tw_cons_pos (by simp [Bool.eq_false_iff.mpr hh])]
          show ((c == '/') && _) = false
          rw [hcs]
          rfl

theorem withOrigin_base (u : List Char) :
    withOrigin (stripQueryFragment (withOrigin u)) = stripQueryFragment (withOrigin u) := by
  rw [withOrigin]
  rw [if_neg (by simp [startsWith_stripQF_withOrigin u])]

theorem canonPre_eq : canonPre = origin ++ marker := by decide

theorem canonPre_noQF : noQF canonPre := by
  unfold noQF
  decide

theorem startsWith_canonPre_append (x : List Char) :
    startsWithL (canonPre ++ x) ['/'] = false := by
  have h : canonPre = 'h' :: "ttps://www.linkedin.com/jobs/view/".data := by decide
  rw [h, List.cons_append]
  show (('h' == '/') && _) = false
  rw [show (('h' : Char) == '/') = false by decide]
  rfl

/-- C9: normalize_job_url is idempotent; every output of the canonicalizer is
a fixed point, so re-canonicalizing already-canonical stored URLs never
changes an identity. -/
theorem c9_normalize_idempotent (u : List Char) :
    normalize_job_url (normalize_job_url u) = normalize_job_url u := by
  have hb1 := withOrigin_base u
  have hb2 := stripQF_idem (withOrigin u)
  by_cases hc : containsL (stripQueryFragment (withOrigin u)) marker = true
  · cases hs : segOfBase (stripQueryFragment (withOrigin u)) with
    | none =>
      have h1 : normalize_job_url u = stripQueryFragment (withOrigin u) := by
        simp only [normalize_job_url]
        rw [if_neg (by simp [hc]), hs]
      have h2 : normalize_job_url (stripQueryFragment (withOrigin u))
          = stripQueryFragment (withOrigin u) := by
        simp only [normalize_job_url, hb1, hb2]
        rw [if_neg (by simp [hc]), hs]
      rw [h1, h2]
    | some seg =>
      obtain ⟨hne, hnos, hsub⟩ := segOfBase_inv hs
      have hnoqf : ∀ c ∈ seg, (c == '?') = false ∧ (c == '#') = false :=
        fun c hcm => (mem_stripQF (hsub c hcm)).2
      have hrss : rstripSlashes seg = seg := rstripSlashes_eq_self hnos
      have h1 : normalize_job_url u = canonPre ++ jobIdOf seg := by
        simp only [normalize_job_url]
        rw [if_neg (by simp [hc]), hs]
        show canonPre ++ jobIdOf (rstripSlashes seg) = canonPre ++ jobIdOf seg
        rw [hrss]
      have hJne : jobIdOf seg ≠ [] := jobIdOf_ne_nil hne
      have hJnos : ∀ c ∈ jobIdOf seg, (c == '/') = false :=
        fun c hcm => hnos c (jobIdOf_mem hcm)
      have hJnoqf : noQF (jobIdOf seg) := fun c hcm => hnoqf c (jobIdOf_mem hcm)
      have hw : withOrigin (canonPre ++ jobIdOf seg) = canonPre ++ jobIdOf seg := by
        rw [withOrigin, if_neg (by simp [startsWith_canonPre_append (jobIdOf seg)])]
      have hq : stripQueryFragment (canonPre ++ jobIdOf seg) = canonPre ++ jobIdOf seg := by
        apply stripQF_eq_self
        intro c hcm
        rcases List.mem_append.mp hcm with h | h
        · exact canonPre_noQF c h
        · exact hJnoqf c h
      have hcm2 : containsL (canonPre ++ jobIdOf seg) marker = true := by
        rw [canonPre_eq, List.append_assoc]
        exact containsL_middle origin marker (jobIdOf seg)
      have hsg2 : segOfBase (canonPre ++ jobIdOf seg) = some (jobIdOf seg) := by
        have h := segOfBase_append origin (jobIdOf seg) []
          hJne hJnos (Or.inl rfl)
        rw [List.append_nil] at h
        rw [canonPre_eq]
        exact h
      have h2 : normalize_job_url (canonPre ++ jobIdOf seg) = canonPre ++ jobIdOf seg := by
        simp only [normalize_job_url, hw, hq]
        rw [if_neg (by simp [hcm2]), hsg2]
        show canonPre ++ jobIdOf (rstripSlashes (jobIdOf seg)) = canonPre ++ jobIdOf seg
        rw [rstripSlashes_eq_self hJnos, jobIdOf_idem]
      rw [h1, h2]
  · have hcf : containsL (stripQueryFragment (withOrigin u)) marker = false :=
      Bool.eq_false_iff.mpr hc
    have h1 : normalize_job_url u = stripQueryFragment (withOrigin u) := by
      simp only [normalize_job_url]
      rw [if_pos (by simp [hcf])]
    have h2 : normalize_job_url (stripQueryFragment (withOrigin u))
        = stripQueryFragment (withOrigin u) := by
      simp only [normalize_job_url, hb1, hb2]
      rw [if_pos (by simp [hcf])]
    rw [h1, h2]

/-!
Agreement of the numeric and the slug-plus-numeric URL forms.
-/

theorem digit_beq_false {c d : Char} (hc : Char.isDigit c = true)
    (hd : Char.isDigit d = false) : (c == d) = false := by
  cases hb : c == d with
  | false => rfl
  | true =>
    exfalso
    rw [eq_of_beq hb, hd] at hc
    exact Bool.false_ne_true hc

theorem marker_noQF : noQF marker := by decide

theorem origin_noQF : noQF origin := by decide

theorem noQF_append {a b : List Char} (ha : noQF a) (hb : noQF b) : noQF (a ++ b) :=
  fun c hc => (List.mem_append.mp hc).elim (ha c) (hb c)

theorem trailB_cases {t : List Char} (h : trailB t = true) : t = [] ∨ t = ['/'] := by
  cases t with
  | nil => exact Or.inl rfl
  | cons c r =>
    have h2 : ((c :: r : List Char) == ['/']) = true := by
      have he : trailB (c :: r)
          = ((c :: r : List Char).isEmpty || ((c :: r : List Char) == ['/'])) := rfl
      rw [he] at h
      simpa using h
    exact Or.inr (eq_of_beq h2)

theorem trail_noQF {t : List Char} (h : t = [] ∨ t = ['/']) : noQF t := by
  rcases h with h | h
  · subst h
    exact fun c hc => absurd hc (List.not_mem_nil c)
  · subst h
    decide

theorem splitOnDash_isEmpty_false (l : List Char) : (splitOnDash l).isEmpty = false := by
  cases h : splitOnDash l with
  | nil => exact absurd h (splitOnDash_ne_nil l)
  | cons a r => rfl

theorem jobIdOf_slug {slug jid : List Char} (hid : isDigitStr jid = true)
    (hnd : '-' ∉ jid) :
    jobIdOf (slug ++ '-' :: jid) = jid := by
  rcases splitOnDash_append_dash slug jid with ⟨L, hL, hEq⟩
  rw [splitOnDash_no_dash jid hnd] at hEq
  have hlast : lastD (splitOnDash (slug ++ '-' :: jid)) [] = jid := by
    rw [hEq]
    exact lastD_append L jid [] []
  have hdigit_seg : isDigitStr (slug ++ '-' :: jid) = false := by
    unfold isDigitStr
    have hmem : '-' ∈ slug ++ '-' :: jid :=
      List.mem_append.mpr (Or.inr (List.mem_cons_self _ _))
    have hall : (slug ++ '-' :: jid).all Char.isDigit = false := by
      rcases Bool.eq_false_or_eq_true ((slug ++ '-' :: jid).all Char.isDigit) with h | h
      · exact absurd (List.all_eq_true.mp h '-' hmem) (by decide)
      · exact h
    rw [hall, Bool.and_false]
  simp only [jobIdOf]
  rw [if_neg (by simp [hdigit_seg])]
  rw [if_pos (by rw [splitOnDash_isEmpty_false, hlast]; simp [hid])]
  exact hlast

theorem stripQF_withOrigin_form {A s : List Char} (hA : noQF A) (hs : qfSuffixB s = true) :
    stripQueryFragment (withOrigin (A ++ s)) = A
    ∨ stripQueryFragment (withOrigin (A ++ s)) = origin ++ A := by
  unfold withOrigin
  by_cases h : startsWithL (A ++ s) ['/'] = true
  · rw [if_pos h]
    right
    rw [← List.append_assoc]
    exact stripQF_append_qf (noQF_append origin_noQF hA) hs
  · rw [if_neg h]
    left
    exact stripQF_append_qf hA hs

theorem normalize_eval {url pre seg t : List Char}
    (hstrip : stripQueryFragment (withOrigin url) = pre ++ marker ++ seg ++ t)
    (hne : seg ≠ []) (hnos : ∀ c ∈ seg, (c == '/') = false)
    (ht : t = [] ∨ t = ['/']) :
    normalize_job_url url = canonPre ++ jobIdOf seg := by
  simp only [normalize_job_url, hstrip]
  have hcont : containsL (pre ++ (marker ++ (seg ++ t))) marker = true :=
    containsL_middle pre marker (seg ++ t)
  rw [if_neg (by simp [hcont]), segOfBase_append pre seg t hne hnos ht]
  show canonPre ++ jobIdOf (rstripSlashes seg) = canonPre ++ jobIdOf seg
  rw [rstripSlashes_eq_self hnos]

/-- C2: for every decimal job id, every slug (a slug carries no slash, query
or hash character), arbitrary query-or-fragment suffixes, with or without a
leading scheme-and-host part free of query characters, and with or without a
trailing slash, the canonicalizer maps both the numeric form and the
slug-plus-numeric-id form of the posting URL to the identical canonical
string made of the fixed origin, the job-view marker and the id, with no
query, fragment or trailing slash. -/
theorem c2_canonical_forms_agree
    (jid slug pre1 pre2 s1 s2 t1 t2 : List Char)
    (hid : isDigitStr jid = true)
    (hslug1 : ∀ c ∈ slug, (c == '/') = false)
    (hslug2 : noQF slug)
    (hpre1 : noQF pre1) (hpre2 : noQF pre2)
    (hs1 : qfSuffixB s1 = true) (hs2 : qfSuffixB s2 = true)
    (ht1 : trailB t1 = true) (ht2 : trailB t2 = true) :
    normalize_job_url (pre1 ++ marker ++ jid ++ t1 ++ s1) = canonPre ++ jid
    ∧ normalize_job_url (pre2 ++ marker ++ (slug ++ '-' :: jid) ++ t2 ++ s2)
      = canonPre ++ jid := by
  have hall : ∀ c ∈ jid, Char.isDigit c = true :=
    List.all_eq_true.mp ((Bool.and_eq_true _ _).mp hid).2
  have hjne : jid ≠ [] := by
    intro h
    rw [h] at hid
    simp [isDigitStr] at hid
  have hjnos : ∀ c ∈ jid, (c == '/') = false :=
    fun c hc => digit_beq_false (hall c hc) (by decide)
  have hjnoqf : noQF jid := fun c hc =>
    ⟨digit_beq_false (hall c hc) (by decide), digit_beq_false (hall c hc) (by decide)⟩
  have hnd : '-' ∉ jid := fun hm => absurd (hall '-' hm) (by decide)
  have ht1' := trailB_cases ht1
  have ht2' := trailB_cases ht2
  have hjid_id : jobIdOf jid = jid := by
    unfold jobIdOf
    rw [if_pos hid]
  constructor
  · have hA : noQF (pre1 ++ marker ++ jid ++ t1) :=
      noQF_append (noQF_append (noQF_append hpre1 marker_noQF) hjnoqf) (trail_noQF ht1')
    rcases stripQF_withOrigin_form hA hs1 with hst | hst
    · rw [normalize_eval hst hjne hjnos ht1', hjid_id]
    · have hre : origin ++ (pre1 ++ marker ++ jid ++ t1)
          = (origin ++ pre1) ++ marker ++ jid ++ t1 := by
        simp [List.append_assoc]
      rw [hre] at hst
      rw [normalize_eval hst hjne hjnos ht1', hjid_id]
  · have hne2 : slug ++ '-' :: jid ≠ [] := by simp
    have hnos2 : ∀ c ∈ slug ++ '-' :: jid, (c == '/') = false := by
      intro c hc
      rcases List.mem_append.mp hc with h | h
      · exact hslug1 c h
      · rcases List.mem_cons.mp h with h | h
        · subst h; decide
        · exact hjnos c h
    have hnoqf2 : noQF (slug ++ '-' :: jid) := by
      intro c hc
      rcases List.mem_append.mp hc with h | h
      · exact hslug2 c h
      · rcases List.mem_cons.mp h with h | h
        · subst h; exact ⟨by decide, by decide⟩
        · exact hjnoqf c h
    have hA : noQF (pre2 ++ marker ++ (slug ++ '-' :: jid) ++ t2) :=
      noQF_append (noQF_append (noQF_append hpre2 marker_noQF) hnoqf2) (trail_noQF ht2')
    have hseg_id : jobIdOf (slug ++ '-' :: jid) = jid := jobIdOf_slug hid hnd
    rcases stripQF_withOrigin_form hA hs2 with hst | hst
    · rw [normalize_eval hst hne2 hnos2 ht2', hseg_id]
    · have hre : origin ++ (pre2 ++ marker ++ (slug ++ '-' :: jid) ++ t2)
          = (origin ++ pre2) ++ marker ++ (slug ++ '-' :: jid) ++ t2 := by
        simp [List.append_assoc]
      rw [hre] at hst
      rw [normalize_eval hst hne2 hnos2 ht2', hseg_id]

/-- Witness for C2: both URL forms of posting 4370870454, one scheme-relative
with a query string, one absolute with a slug, a trailing slash and a
fragment, canonicalize to the same string. -/
theorem c2_witness :
    normalize_job_url ([] ++ marker ++ "4370870454".data ++ [] ++ "?refId=9".data)
      = canonPre ++ "4370870454".data
    ∧ normalize_job_url (origin ++ marker
        ++ ("senior-engineer".data ++ '-' :: "4370870454".data) ++ "/".data ++ "#top".data)
      = canonPre ++ "4370870454".data :=
  c2_canonical_forms_agree "4370870454".data "senior-engineer".data [] origin
    "?refId=9".data "#top".data [] "/".data
    (by decide) (by decide) (by decide) (by decide) (by decide) (by decide) (by decide)
    (by decide) (by decide)

/-- C4: on any company-profile text, the classifier returns true when some
in-range pattern (the explicit 1-10, 11-50, 1, 2-10 employee phrases,
case-insensitively) matches; when no in-range pattern matches it returns
false, both when some out-of-range pattern (an explicit range of 51 or more,
or a bare employee count of 51 or more) matches, and when no employee-count
phrase is recognized at all. -/
theorem c4_employee_range_classification (text : List Char) :
    ((∃ p ∈ in_range_patterns, regexSearch p text = true) →
      parse_employee_range_from_text text = true)
    ∧ ((¬ ∃ p ∈ in_range_patterns, regexSearch p text = true) →
        (∃ p ∈ out_of_range_patterns, regexSearch p text = true) →
        parse_employee_range_from_text text = false)
    ∧ ((¬ ∃ p ∈ in_range_patterns, regexSearch p text = true) →
        (¬ ∃ p ∈ out_of_range_patterns, regexSearch p text = true) →
        parse_employee_range_from_text text = false) := by
  unfold parse_employee_range_from_text
  by_cases hin : in_range_patterns.any (fun p => regexSearch p text) = true
  · rw [if_pos hin]
    have hex : ∃ p ∈ in_range_patterns, regexSearch p text = true := by
      simpa using List.any_eq_true.mp hin
    exact ⟨fun _ => rfl, fun hni _ => absurd hex hni, fun hni _ => absurd hex hni⟩
  · rw [if_neg hin]
    have hni : ¬ ∃ p ∈ in_range_patterns, regexSearch p text = true := fun he =>
      hin (List.any_eq_true.mpr (by simpa using he))
    have hboth : (if out_of_range_patterns.any (fun p => regexSearch p text) = true
        then false else false) = false := by
      by_cases ho : out_of_range_patterns.any (fun p => regexSearch p text) = true
      · rw [if_pos ho]
      · rw [if_neg ho]
    exact ⟨fun he => absurd he hni, fun _ _ => hboth, fun _ _ => hboth⟩

/-- Witness for C4: a text containing the 11-50 employees phrase is accepted. -/
theorem c4_witness :
    parse_employee_range_from_text "Acme, 11-50 employees".data = true :=
  (c4_employee_range_classification "Acme, 11-50 employees".data).1 (by decide)

/-- C5: a job-detail document is classified first-party exactly when the
header region (when one is found) does not contain the space-bounded via
token in its lower-cased text, and no button or link element has lower-cased
text containing the apply-on phrase together with a denylisted third-party
board name; in particular a document with no header region is not
disqualified by the header signal. -/
theorem c5_first_party_iff (d : Doc) :
    is_first_party_job d = true ↔
      ((∀ h, headerOf d = some h → containsL (lowerL h.text) " via ".data = false)
       ∧ ∀ el ∈ d.buttons ++ d.anchors,
           ¬(containsL (lowerL el.text) "apply on ".data = true
             ∧ ∃ k ∈ THIRD_PARTY_KEYWORDS, containsL (lowerL el.text) k = true)) := by
  have happly : ∀ b : Bool,
      ((d.buttons ++ d.anchors).any (fun el =>
        containsL (lowerL el.text) "apply on ".data
          && THIRD_PARTY_KEYWORDS.any (fun k => containsL (lowerL el.text) k)) = b) →
      ((b = false) ↔ ∀ el ∈ d.buttons ++ d.anchors,
        ¬(containsL (lowerL el.text) "apply on ".data = true
          ∧ ∃ k ∈ THIRD_PARTY_KEYWORDS, containsL (lowerL el.text) k = true)) := by
    intro b hb
    cases b with
    | true =>
      rcases List.any_eq_true.mp hb with ⟨el, hel, hprop⟩
      rcases (Bool.and_eq_true _ _).mp hprop with ⟨h1, h2⟩
      constructor
      · intro hf; exact absurd hf (by decide)
      · intro hall
        exfalso
        exact hall el hel ⟨h1, by simpa using List.any_eq_true.mp h2⟩
    | false =>
      constructor
      · intro _ el hel hprop
        rcases hprop with ⟨h1, k, hk, h2⟩
        have : (d.buttons ++ d.anchors).any (fun el =>
            containsL (lowerL el.text) "apply on ".data
              && THIRD_PARTY_KEYWORDS.any (fun kk => containsL (lowerL el.text) kk)) = true :=
          List.any_eq_true.mpr ⟨el, hel,
            (Bool.and_eq_true _ _).mpr ⟨h1, List.any_eq_true.mpr ⟨k, hk, h2⟩⟩⟩
        rw [hb] at this
        exact Bool.false_ne_true this
      · intro _; rfl
  unfold is_first_party_job
  cases hh : headerOf d with
  | none =>
    simp only []
    cases ha : (d.buttons ++ d.anchors).any (fun el =>
        containsL (lowerL el.text) "apply on ".data
          && THIRD_PARTY_KEYWORDS.any (fun k => containsL (lowerL el.text) k)) with
    | true =>
      rw [if_neg (by decide), if_pos rfl]
      constructor
      · intro hf; exact absurd hf (by decide)
      · rintro ⟨_, h2⟩
        exact absurd (((happly true ha).mpr h2)) (by decide)
    | false =>
      rw [if_neg (by decide), if_neg (by simp)]
      constructor
      · intro _
        refine ⟨fun h hcontra => ?_, ((happly false ha).mp rfl)⟩
        exact Option.noConfusion hcontra
      · intro _; rfl
  | some hdr =>
    simp only []
    cases hv : containsL (lowerL hdr.text) " via ".data with
    | true =>
      rw [if_pos rfl]
      constructor
      · intro hf; exact absurd hf (by decide)
      · rintro ⟨h1, _⟩
        have := h1 hdr rfl
        rw [hv] at this
        exact Bool.noConfusion this
    | false =>
      rw [if_neg (by simp)]
      cases ha : (d.buttons ++ d.anchors).any (fun el =>
          containsL (lowerL el.text) "apply on ".data
            && THIRD_PARTY_KEYWORDS.any (fun k => containsL (lowerL el.text) k)) with
      | true =>
        rw [if_pos rfl]
        constructor
        · intro hf; exact absurd hf (by decide)
        · rintro ⟨_, h2⟩
          exact absurd (((happly true ha).mpr h2)) (by decide)
      | false =>
        rw [if_neg (by simp)]
        constructor
        · intro _
          refine ⟨fun h heq => ?_, ((happly false ha).mp rfl)⟩
          injection heq with heq
          subst heq
          exact hv
        · intro _; rfl

/-- C7: a transport failure on one job-detail URL skips exactly that URL:
the pipeline output over any batch containing the failing URL is the
concatenation of the outputs over the part before it and the part after it
(so all subsequent URLs are still processed and the failure never escapes
the pipeline, which is a total function); and the surviving URLs always form
a sublist of the input, preserving relative order. -/
theorem c7_transport_failure_isolated (fetch : FetchOracle) (pre : List (List Char))
    (u : List Char) (post : List (List Char))
    (hfail : fetch u = Except.error ()) :
    (filter_first_party_jobs fetch (pre ++ u :: post)
      = filter_first_party_jobs fetch pre ++ filter_first_party_jobs fetch post)
    ∧ ∀ urls : List (List Char),
        List.Sublist ((filter_first_party_jobs fetch urls).map JobResult.url) urls := by
  constructor
  · induction pre with
    | nil =>
      simp only [List.nil_append, filter_first_party_jobs, hfail]
    | cons v pre' ih =>
      rw [List.cons_append]
      cases hv : fetch v with
      | error e =>
        have h1 : filter_first_party_jobs fetch (v :: (pre' ++ u :: post))
            = filter_first_party_jobs fetch (pre' ++ u :: post) := by
          simp only [filter_first_party_jobs, hv]
        have h2 : filter_first_party_jobs fetch (v :: pre')
            = filter_first_party_jobs fetch pre' := by
          simp only [filter_first_party_jobs, hv]
        rw [h1, h2, ih]
      | ok dv =>
        by_cases hp : (is_first_party_job dv && is_company_size_1_to_50 dv fetch) = true
        · have h1 : filter_first_party_jobs fetch (v :: (pre' ++ u :: post))
              = ⟨v, parse_company_name_from_job_page dv⟩
                  :: filter_first_party_jobs fetch (pre' ++ u :: post) := by
            simp only [filter_first_party_jobs, hv, if_pos hp]
          have h2 : filter_first_party_jobs fetch (v :: pre')
              = ⟨v, parse_company_name_from_job_page dv⟩ :: filter_first_party_jobs fetch pre' := by
            simp only [filter_first_party_jobs, hv, if_pos hp]
          rw [h1, h2, ih, List.cons_append]
        · have h1 : filter_first_party_jobs fetch (v :: (pre' ++ u :: post))
              = filter_first_party_jobs fetch (pre' ++ u :: post) := by
            simp only [filter_first_party_jobs, hv, if_neg hp]
          have h2 : filter_first_party_jobs fetch (v :: pre')
              = filter_first_party_jobs fetch pre' := by
            simp only [filter_first_party_jobs, hv, if_neg hp]
          rw [h1, h2, ih]
  · intro urls
    induction urls with
    | nil => simp [filter_first_party_jobs]
    | cons v rest ih =>
      cases hv : fetch v with
      | error e =>
        have h1 : filter_first_party_jobs fetch (v :: rest)
            = filter_first_party_jobs fetch rest := by
          simp only [filter_first_party_jobs, hv]
        rw [h1]
        exact List.Sublist.cons v ih
      | ok dv =>
        by_cases hp : (is_first_party_job dv && is_company_size_1_to_50 dv fetch) = true
        · have h1 : filter_first_party_jobs fetch (v :: rest)
              = ⟨v, parse_company_name_from_job_page dv⟩ :: filter_first_party_jobs fetch rest := by
            simp only [filter_first_party_jobs, hv, if_pos hp]
          rw [h1, List.map_cons]
          exact List.Sublist.cons₂ v ih
        · have h1 : filter_first_party_jobs fetch (v :: rest)
              = filter_first_party_jobs fetch rest := by
            simp only [filter_first_party_jobs, hv, if_neg hp]
          rw [h1]
          exact List.Sublist.cons v ih

/-- Witness for C7: with the concrete oracle that fails on one URL, the batch
around the failing URL splits as the theorem states, and the output of the
first part is in input order. -/
theorem c7_witness :
    (filter_first_party_jobs fetchA (["u1".data] ++ "https://bad.example".data :: ["u2".data])
      = filter_first_party_jobs fetchA ["u1".data] ++ filter_first_party_jobs fetchA ["u2".data])
    ∧ List.Sublist ((filter_first_party_jobs fetchA ["u1".data]).map JobResult.url)
        ["u1".data] :=
  ⟨(c7_transport_failure_isolated fetchA ["u1".data] "https://bad.example".data ["u2".data]
      rfl).1,
   (c7_transport_failure_isolated fetchA ["u1".data] "https://bad.example".data ["u2".data]
      rfl).2 ["u1".data]⟩

/-!
Membership in the loaded existing set.
-/

theorem insertUrl_mem {s : List (List Char)} {k u : List Char} :
    u ∈ insertUrl s k ↔ u ∈ s ∨ u = k := by
  unfold insertUrl
  by_cases h : memL s k = true
  · rw [if_pos h]
    constructor
    · exact Or.inl
    · rintro (h1 | h1)
      · exact h1
      · subst h1; exact memL_iff.mp h
  · rw [if_neg h]
    constructor
    · intro hm
      rcases List.mem_append.mp hm with h1 | h1
      · exact Or.inl h1
      · exact Or.inr (List.mem_singleton.mp h1)
    · rintro (h1 | h1)
      · exact List.mem_append.mpr (Or.inl h1)
      · exact List.mem_append.mpr (Or.inr (List.mem_singleton.mpr h1))

theorem addRow_mem {s : List (List Char)} {row : CsvRow} {u : List Char} :
    u ∈ addRow s row
      ↔ u ∈ s ∨ (row.job_url.isEmpty = false ∧ u = loadKey row.job_url) := by
  unfold addRow
  by_cases h : row.job_url.isEmpty = true
  · rw [if_pos h]
    constructor
    · exact Or.inl
    · rintro (h1 | ⟨h1, _⟩)
      · exact h1
      · rw [h] at h1; exact absurd h1 (by decide)
  · rw [if_neg h]
    rw [insertUrl_mem]
    have h' : row.job_url.isEmpty = false := Bool.eq_false_iff.mpr h
    constructor
    · rintro (h1 | h1)
      · exact Or.inl h1
      · exact Or.inr ⟨h', h1⟩
    · rintro (h1 | ⟨_, h1⟩)
      · exact Or.inl h1
      · exact Or.inr h1

theorem load_foldl_mem : ∀ (rows : List CsvRow) (s : List (List Char)) (u : List Char),
    u ∈ rows.foldl addRow s
      ↔ u ∈ s ∨ ∃ row ∈ rows, row.job_url.isEmpty = false ∧ u = loadKey row.job_url
  | [], s, u => by simp
  | r :: rest, s, u => by
    rw [List.foldl_cons, load_foldl_mem rest (addRow s r) u, addRow_mem]
    constructor
    · rintro ((h | h) | h)
      · exact Or.inl h
      · exact Or.inr ⟨r, List.mem_cons_self _ _, h⟩
      · rcases h with ⟨row, hm, hp⟩
        exact Or.inr ⟨row, List.mem_cons_of_mem _ hm, hp⟩
    · rintro (h | ⟨row, hm, hp⟩)
      · exact Or.inl (Or.inl h)
      · rcases List.mem_cons.mp hm with h1 | h1
        · subst h1; exact Or.inl (Or.inr hp)
        · exact Or.inr ⟨row, h1, hp⟩

theorem load_mem_iff {rows : List CsvRow} {u : List Char} :
    u ∈ load_existing_job_urls (some rows)
      ↔ ∃ row ∈ rows, row.job_url.isEmpty = false ∧ u = loadKey row.job_url := by
  unfold load_existing_job_urls
  rw [load_foldl_mem rows [] u]
  simp

/-- C8: loading the dataset from a missing store file yields the empty set
(no exception: the loader is a total function), and every row whose job_url
field contains the job-detail marker contributes the re-canonicalized form
of its stripped field to the in-memory identity set. -/
theorem c8_load_missing_and_recanonicalize
    (rows : List CsvRow) (row : CsvRow)
    (hmem : row ∈ rows) (hne : row.job_url.isEmpty = false)
    (hmk : containsL (stripWS row.job_url) marker = true) :
    load_existing_job_urls none = []
    ∧ normalize_job_url (stripWS row.job_url) ∈ load_existing_job_urls (some rows) := by
  refine ⟨rfl, ?_⟩
  rw [load_mem_iff]
  refine ⟨row, hmem, hne, ?_⟩
  simp only [loadKey]
  rw [if_pos hmk]

/-- Witness for C8 at a one-row store holding a legacy raw job URL. -/
theorem c8_witness :
    load_existing_job_urls none = []
    ∧ normalize_job_url (stripWS "/jobs/view/x-12".data)
        ∈ load_existing_job_urls (some [⟨"c".data, "/jobs/view/x-12".data⟩]) :=
  c8_load_missing_and_recanonicalize [⟨"c".data, "/jobs/view/x-12".data⟩]
    ⟨"c".data, "/jobs/view/x-12".data⟩ (List.mem_cons_self _ _) rfl (by decide)

/-- C1: in every cycle the persisted store gains exactly the posted subset,
appended in order as company, job_url rows; a job URL is appended in the
cycle exactly when some record accepted by the filter pipeline carries it,
it is not in the loaded existing dataset, and either no notifier token is
configured or its Slack delivery succeeded; and when a token is configured
and every delivery fails, the store object, including a missing file, is
left completely unchanged (no rows appended, no header written). -/
theorem c1_persist_iff (env : CycleEnv) (store : Option (List CsvRow))
    (jobs : List JobResult) :
    rowsOf (run_once env store jobs).store
      = rowsOf store ++ (run_once env store jobs).posted.map
          (fun j => (⟨j.company_name, j.url⟩ : CsvRow))
    ∧ (∀ u, (∃ j ∈ (run_once env store jobs).posted, j.url = u)
        ↔ ∃ j ∈ jobs, j.url = u ∧ memL (load_existing_job_urls store) u = false
            ∧ (slackTokenOf env = []
               ∨ (send_job_to_slack env.post j env.slack_channel_id
                    (slackTokenOf env)).fst = true))
    ∧ ((slackTokenOf env ≠ []
        ∧ ∀ j ∈ jobs, (send_job_to_slack env.post j env.slack_channel_id
            (slackTokenOf env)).fst = false)
       → (run_once env store jobs).store = store) := by
  have hstore : (run_once env store jobs).store
      = if (postedOf env store jobs).isEmpty then store
        else append_jobs_to_csv (postedOf env store jobs) store := rfl
  have hposted : (run_once env store jobs).posted = postedOf env store jobs := rfl
  refine ⟨?_, ?_, ?_⟩
  · rw [hstore, hposted]
    by_cases hp : (postedOf env store jobs).isEmpty = true
    · rw [if_pos hp, List.isEmpty_iff.mp hp]
      simp
    · rw [if_neg hp]
      rfl
  · intro u
    rw [hposted]
    unfold postedOf new_jobsOf
    by_cases htok : (slackTokenOf env).isEmpty = true
    · rw [if_pos htok]
      have htok' : slackTokenOf env = [] := List.isEmpty_iff.mp htok
      constructor
      · rintro ⟨j, hj, hju⟩
        rcases List.mem_filter.mp hj with ⟨hjm, hjp⟩
        refine ⟨j, hjm, hju, ?_, Or.inl htok'⟩
        have hm : memL (load_existing_job_urls store) j.url = false := by simpa using hjp
        rwa [hju] at hm
      · rintro ⟨j, hjm, hju, hmem, _⟩
        refine ⟨j, List.mem_filter.mpr ⟨hjm, ?_⟩, hju⟩
        rw [hju]
        simp [hmem]
    · rw [if_neg htok]
      have htok' : slackTokenOf env ≠ [] := by
        intro h
        rw [h] at htok
        exact htok rfl
      constructor
      · rintro ⟨j, hj, hju⟩
        rcases List.mem_filter.mp hj with ⟨hj2, hsend⟩
        rcases List.mem_filter.mp hj2 with ⟨hjm, hjp⟩
        refine ⟨j, hjm, hju, ?_, Or.inr hsend⟩
        have hm : memL (load_existing_job_urls store) j.url = false := by simpa using hjp
        rwa [hju] at hm
      · rintro ⟨j, hjm, hju, hmem, hok⟩
        rcases hok with hok | hok
        · exact absurd hok htok'
        · refine ⟨j, List.mem_filter.mpr ⟨List.mem_filter.mpr ⟨hjm, ?_⟩, hok⟩, hju⟩
          rw [hju]
          simp [hmem]
  · rintro ⟨htokne, hall⟩
    have htok : (slackTokenOf env).isEmpty = false := by
      cases h : (slackTokenOf env).isEmpty with
      | false => rfl
      | true => exact absurd (List.isEmpty_iff.mp h) htokne
    have hpost0 : postedOf env store jobs = [] := by
      unfold postedOf
      rw [if_neg (by simp [htok])]
      apply List.filter_eq_nil_iff.mpr
      intro j hj
      have hjm : j ∈ jobs := (List.mem_filter.mp hj).1
      simp [hall j hjm]
    rw [hstore, hpost0]
    rfl

/-- Witness for C1: with a configured token, an always-failing transport and
one new job, the missing store file stays missing: no header is written and
no row is appended. -/
theorem c1_witness : (run_once envFail none [jobA]).store = none :=
  (c1_persist_iff envFail none [jobA]).2.2 ⟨by decide, by decide⟩

/-- C10: when a notifier token is configured but the channel identifier is
unset or empty, send_job_to_slack returns false for every job and performs
no transport call at all (its call trace is empty, for every transport
oracle), so the cycle posts nothing and leaves the store unchanged even
though every accepted job may be new. -/
theorem c10_no_channel_no_post (env : CycleEnv) (store : Option (List CsvRow))
    (jobs : List JobResult)
    (htok : slackTokenOf env ≠ [])
    (hch : optFalsy env.slack_channel_id = true) :
    (∀ (job : JobResult) (tr : SlackCall → PostResult),
      send_job_to_slack tr job env.slack_channel_id (slackTokenOf env) = (false, []))
    ∧ (run_once env store jobs).posted = []
    ∧ (run_once env store jobs).store = store := by
  have hsend : ∀ (job : JobResult) (tr : SlackCall → PostResult),
      send_job_to_slack tr job env.slack_channel_id (slackTokenOf env) = (false, []) := by
    intro job tr
    unfold send_job_to_slack
    rw [if_pos (by simp [hch])]
  have htokE : (slackTokenOf env).isEmpty = false := by
    cases h : (slackTokenOf env).isEmpty with
    | false => rfl
    | true => exact absurd (List.isEmpty_iff.mp h) htok
  have hpost0 : postedOf env store jobs = [] := by
    unfold postedOf
    rw [if_neg (by simp [htokE])]
    apply List.filter_eq_nil_iff.mpr
    intro j _
    rw [hsend j env.post]
    simp
  refine ⟨hsend, hpost0, ?_⟩
  show (if (postedOf env store jobs).isEmpty then store
        else append_jobs_to_csv (postedOf env store jobs) store) = store
  rw [hpost0]
  rfl

/-- Witness for C10: token set, channel unset, one job: no transport call,
result false, nothing posted. -/
theorem c10_witness :
    send_job_to_slack envNoChan.post jobA envNoChan.slack_channel_id (slackTokenOf envNoChan)
      = (false, [])
    ∧ (run_once envNoChan none [jobA]).posted = [] :=
  ⟨(c10_no_channel_no_post envNoChan none [jobA] (by decide) rfl).1 jobA envNoChan.post,
   (c10_no_channel_no_post envNoChan none [jobA] (by decide) rfl).2.1⟩

/-- Counterexample to C6 as stated: the claim quantifies over every
discovery result, but a discovery-producible job URL whose stored field the
loader transforms (here a trailing space inside the final path segment,
which strip removes while the URL itself survives canonicalization
verbatim) is not recognized as a duplicate, so the second identical cycle
with no notifier posts it again instead of zero rows. -/
theorem c6_counterexample :
    (run_once envNone (run_once envNone none [jobBad]).store [jobBad]).posted = [jobBad] := by
  decide

/-- C6 amended: for every store state and every discovery result whose job
URLs survive the stored-row round trip unchanged (nonempty and fixed points
of strip plus re-canonicalization, as all canonical job-detail URLs are),
running the cycle twice with the same discovery result and no notifier
token appends rows only on the first run: the second run classifies every
discovered job as a duplicate, posts nothing and leaves the store exactly
as the first run left it. -/
theorem c6_amended_dedup_idempotent (env : CycleEnv) (store : Option (List CsvRow))
    (jobs : List JobResult)
    (htok : slackTokenOf env = [])
    (hstable : ∀ j ∈ jobs, j.url.isEmpty = false ∧ loadKey j.url = j.url) :
    (run_once env (run_once env store jobs).store jobs).new_jobs = []
    ∧ (run_once env (run_once env store jobs).store jobs).posted = []
    ∧ (run_once env (run_once env store jobs).store jobs).store
        = (run_once env store jobs).store := by
  have htokE : (slackTokenOf env).isEmpty = true := by rw [htok]; rfl
  have hposted1 : postedOf env store jobs = new_jobsOf store jobs := by
    unfold postedOf
    rw [if_pos htokE]
  have hkey : ∀ j ∈ jobs,
      memL (load_existing_job_urls (run_once env store jobs).store) j.url = true := by
    intro j hj
    by_cases hdup : memL (load_existing_job_urls store) j.url = true
    · by_cases hp : (postedOf env store jobs).isEmpty = true
      · have hst : (run_once env store jobs).store = store := by
          show (if (postedOf env store jobs).isEmpty then store
                else append_jobs_to_csv (postedOf env store jobs) store) = store
          rw [if_pos hp]
        rw [hst]
        exact hdup
      · have hst : (run_once env store jobs).store
            = some (rowsOf store ++ (postedOf env store jobs).map
                (fun j => (⟨j.company_name, j.url⟩ : CsvRow))) := by
          show (if (postedOf env store jobs).isEmpty then store
                else append_jobs_to_csv (postedOf env store jobs) store) = _
          rw [if_neg hp]
          rfl
        rw [hst, memL_iff, load_mem_iff]
        cases store with
        | none =>
          rw [memL_iff] at hdup
          simp [load_existing_job_urls] at hdup
        | some rows0 =>
          rw [memL_iff, load_mem_iff] at hdup
          rcases hdup with ⟨row, hr, hprops⟩
          exact ⟨row, List.mem_append.mpr (Or.inl hr), hprops⟩
    · have hdup' : memL (load_existing_job_urls store) j.url = false :=
        Bool.eq_false_iff.mpr hdup
      have hjn : j ∈ new_jobsOf store jobs :=
        List.mem_filter.mpr ⟨hj, by simp [hdup']⟩
      have hp : (postedOf env store jobs).isEmpty = false := by
        rw [hposted1]
        cases hq : new_jobsOf store jobs with
        | nil => rw [hq] at hjn; exact absurd hjn (List.not_mem_nil j)
        | cons a r => rfl
      have hst : (run_once env store jobs).store
          = some (rowsOf store ++ (postedOf env store jobs).map
              (fun j => (⟨j.company_name, j.url⟩ : CsvRow))) := by
        show (if (postedOf env store jobs).isEmpty then store
              else append_jobs_to_csv (postedOf env store jobs) store) = _
        rw [if_neg (by simp [hp])]
        rfl
      rw [hst, memL_iff, load_mem_iff]
      refine ⟨⟨j.company_name, j.url⟩, List.mem_append.mpr (Or.inr ?_), ?_, ?_⟩
      · rw [hposted1]
        exact List.mem_map.mpr ⟨j, hjn, rfl⟩
      · exact (hstable j hj).1
      · exact ((hstable j hj).2).symm
  have hnew2 : new_jobsOf (run_once env store jobs).store jobs = [] := by
    unfold new_jobsOf
    apply List.filter_eq_nil_iff.mpr
    intro j hj
    simp [hkey j hj]
  have hposted2 : postedOf env (run_once env store jobs).store jobs = [] := by
    unfold postedOf
    rw [if_pos htokE, hnew2]
  refine ⟨hnew2, hposted2, ?_⟩
  show (if (postedOf env (run_once env store jobs).store jobs).isEmpty
        then (run_once env store jobs).store
        else append_jobs_to_csv (postedOf env (run_once env store jobs).store jobs)
          (run_once env store jobs).store) = (run_once env store jobs).store
  rw [hposted2]
  rfl

/-- Witness for C6 amended: a canonical job URL is stable under the load
round trip, and the second identical cycle posts nothing. -/
theorem c6_amended_witness :
    (run_once envNone (run_once envNone none [jobA]).store [jobA]).posted = [] :=
  (c6_amended_dedup_idempotent envNone none [jobA] rfl (by decide)).2.1

/-- Counterexample to C3 as stated: the claim lists a non-2xx HTTP status as
an outcome yielding false, but send_job_to_slack never examines the status
code: a completed transport call with status 500 and a payload whose ok
field is true yields true. -/
theorem c3_counterexample :
    (send_job_to_slack (fun _ => PostResult.resp ⟨500, some true⟩) jobA
        (some "chan".data) "tok".data).fst = true
    ∧ ¬(200 ≤ 500 ∧ 500 ≤ 299) := by
  constructor
  · decide
  · decide

/-- C3 amended: the notifier returns true exactly when the token and channel
are nonempty, the transport call completes without an exception, and the
parsed response payload carries a truthy ok field; a transport error, an
unparseable payload and a missing or falsy ok field all yield false (and the
function is total, so no outcome raises); the HTTP status code of the
response is not examined. -/
theorem c3_amended_send_ack_iff (tr : SlackCall → PostResult) (job : JobResult)
    (channel_id : Option (List Char)) (token : List Char) :
    (send_job_to_slack tr job channel_id token).fst = true
      ↔ (token.isEmpty = false ∧ optFalsy channel_id = false
         ∧ ∃ r, tr (slackCallFor job channel_id) = PostResult.resp r
             ∧ r.payload = some true) := by
  unfold send_job_to_slack
  by_cases h : (token.isEmpty || optFalsy channel_id) = true
  · rw [if_pos h]
    constructor
    · intro hf
      exact absurd hf (by decide)
    · rintro ⟨h1, h2, _⟩
      rw [h1, h2] at h
      exact absurd h (by decide)
  · have hor : (token.isEmpty || optFalsy channel_id) = false := Bool.eq_false_iff.mpr h
    have h1 : token.isEmpty = false := by
      cases he : token.isEmpty with
      | false => rfl
      | true => rw [he, Bool.true_or] at hor; exact absurd hor (by decide)
    have h2 : optFalsy channel_id = false := by
      cases he : optFalsy channel_id with
      | false => rfl
      | true => rw [he, Bool.or_true] at hor; exact absurd hor (by decide)
    rw [if_neg h]
    show sendOutcome (tr (slackCallFor job channel_id)) = true
      ↔ (token.isEmpty = false ∧ optFalsy channel_id = false
         ∧ ∃ r, tr (slackCallFor job channel_id) = PostResult.resp r
             ∧ r.payload = some true)
    cases hp : tr (slackCallFor job channel_id) with
    | err =>
      constructor
      · intro hf
        exact absurd hf (by decide)
      · rintro ⟨_, _, r, hr, _⟩
        exact PostResult.noConfusion hr
    | resp r =>
      have hred : sendOutcome (PostResult.resp r) = ackTruthy r.payload := rfl
      rw [hred]
      cases hl : r.payload with
      | none =>
        constructor
        · intro hf
          exact absurd hf (by decide)
        · rintro ⟨_, _, r2, hr2, hl2⟩
          injection hr2 with hr2
          subst hr2
          rw [hl] at hl2
          exact Option.noConfusion hl2
      | some ok =>
        cases ok with
        | true =>
          constructor
          · intro _
            exact ⟨h1, h2, r, rfl, hl⟩
          · intro _
            decide
        | false =>
          constructor
          · intro hf
            exact absurd hf (by decide)
          · rintro ⟨_, _, r2, hr2, hl2⟩
            injection hr2 with hr2
            subst hr2
            rw [hl] at hl2
            exact absurd hl2 (by decide)

/-- Witness for C3 amended: a completed call with a truthy ok field and
nonempty token and channel yields true. -/
theorem c3_amended_witness :
    (send_job_to_slack (fun _ => PostResult.resp ⟨200, some true⟩) jobA
        (some "chan".data) "tok".data).fst = true :=
  (c3_amended_send_ack_iff (fun _ => PostResult.resp ⟨200, some true⟩) jobA
      (some "chan".data) "tok".data).mpr
    ⟨rfl, rfl, ⟨⟨200, some true⟩, rfl, rfl⟩⟩

/-- Witness for C5: the fixture document with a clean header and a
first-party apply button is classified first-party. -/
theorem c5_witness : is_first_party_job docGood = true :=
  (c5_first_party_iff docGood).mpr
    ⟨fun h heq => by
        injection heq with heq
        subst heq
        decide,
     by decide⟩
